import Mathlib

/-!
Shallow embedding of `src/mut_elems.rs` (crate `mut-elems`).

The crate hands out simultaneous mutable references to several elements of a
slice.  A mutable reference produced by `mut_elems` is determined by the
position it points at, so we model a handle by its position (`Nat`) and a
slice by a `List α`.  The success value of `mut_elems` is the list of handle
positions, in order; reading and writing through a handle are modelled by
`List` indexing and `List.set`.

`MutElemsError`, the two validation phases (duplicate scan with a hash map,
bounds scan) and the special cases on `N` are translated clause by clause
from the Rust source.  The `HashMap<usize, usize>` named `seen` is modelled
by an association list with most recent insertion in front; keys are only
inserted when absent, exactly as in the source, so the association list has
the same lookup semantics as the hash map.
-/

/-- Failure cases of `mut_elems`, from `enum MutElemsError`:
`IndicesOverlap { first, second, index }` and
`IndexBound { position, index, length }`. -/
inductive MutElemsError where
  | IndicesOverlap (first second index : Nat)
  | IndexBound (position index length : Nat)
  deriving Repr, DecidableEq

/-- Lookup in the association list that models the `seen : HashMap<usize, usize>`
of the `N > 2` duplicate check.  Combines `contains_key` (result `isSome`)
and `seen[ix]` (the payload). -/
def lookupSeen : List (Nat × Nat) → Nat → Option Nat
  | [], _ => none
  | (k, j) :: rest, x => if k = x then some j else lookupSeen rest x

/-- The `N > 2` duplicate-scan loop of `mut_elems`:
`for (i, ix) in indices.iter().enumerate()`, erroring with
`IndicesOverlap { first: seen[ix], second: i, index: *ix }` on a repeat and
otherwise executing `seen.insert(*ix, i)`. -/
def dupScan : List (Nat × Nat) → Nat → List Nat → Option MutElemsError
  | _, _, [] => none
  | seen, i, ix :: rest =>
    match lookupSeen seen ix with
    | some j => some (.IndicesOverlap j i ix)
    | none => dupScan ((ix, i) :: seen) (i + 1) rest

/-- The `match N` index-checking block of `mut_elems`: `N = 0, 1` skip the
check, `N = 2` compares `indices[0] == indices[1]` and errors with
`IndicesOverlap { first: indices[0], second: indices[1], index: indices[0] }`,
and `N > 2` runs the hash-map scan. -/
def dupCheck : List Nat → Option MutElemsError
  | [] => none
  | [_] => none
  | [a, b] => if a = b then some (.IndicesOverlap a b a) else none
  | a :: b :: c :: rest => dupScan [] 0 (a :: b :: c :: rest)

/-- The bounds-checking loop of `mut_elems`: `for (i, ix) in
indices.iter().enumerate() { if *ix >= nself { return Err(IndexBound {...}) } }`. -/
def boundsCheck (nself : Nat) : Nat → List Nat → Option MutElemsError
  | _, [] => none
  | i, ix :: rest =>
    if nself ≤ ix then some (.IndexBound i ix nself)
    else boundsCheck nself (i + 1) rest

/-- `<[T] as MutElemsExt<T>>::mut_elems`: duplicate check, then bounds check
against `self.len()`, then the construction step
`std::array::from_fn(|i| &mut self[indices[i]])`, whose handle `i` points at
position `indices[i]` — as positions, the constructed handle array is
`indices` itself. -/
def mut_elems {α : Type} (self : List α) (indices : List Nat) :
    Except MutElemsError (List Nat) :=
  match dupCheck indices with
  | some e => .error e
  | none =>
    match boundsCheck self.length 0 indices with
    | some e => .error e
    | none => .ok indices

/-- State-threaded form of `mut_elems`: the Rust function takes `&'a mut self`,
so each arm is made to return the slice contents it leaves behind alongside
the result.  No arm of the source writes to the slice. -/
def mut_elemsS {α : Type} (self : List α) (indices : List Nat) :
    List α × Except MutElemsError (List Nat) :=
  match dupCheck indices with
  | some e => (self, .error e)
  | none =>
    match boundsCheck self.length 0 indices with
    | some e => (self, .error e)
    | none => (self, .ok indices)

/-- The construction step with its two `get_unchecked` accesses replaced by
checked indexing: `from_fn(|i| &mut self[indices[i]])` reads
`indices.get_unchecked(i)` (always in range, `from_fn` supplies `i < N`) and
then `self.get_unchecked_mut(indices[i])`, which is undefined behaviour —
here `none` — exactly when some `indices[i]` is out of range. -/
def constructChecked {α : Type} (self : List α) : List Nat → Option (List α)
  | [] => some []
  | ix :: rest =>
    match self[ix]?, constructChecked self rest with
    | some a, some es => some (a :: es)
    | _, _ => none

/-- `<[T; N] as AsMutElemsExt<N, T>>::as_mut_elems`:
`std::array::from_fn(|i| &mut self[i])` — one handle per position, in order. -/
def as_mut_elems {α : Type} (self : List α) : List Nat :=
  List.range self.length

/-- `AsMutElemsVecExt::as_mut_elems_vec`:
`self.as_mut().iter_mut().map(...).collect()` — one handle per element of the
slice, in iteration order, so handle `i` points at position `i`. -/
def as_mut_elems_vec {α : Type} (self : List α) : List Nat :=
  List.range self.length

/-- Sequential writes through a list of handles: `*es[0] = v0; *es[1] = v1; …`
with each handle dereferenced to its position in the slice. -/
def writeThrough {α : Type} : List α → List Nat → List α → List α
  | s, [], _ => s
  | s, _ :: _, [] => s
  | s, h :: hs, v :: vs => writeThrough (s.set h v) hs vs

/-- The association list `seen` holds after the scan has consumed the
duplicate-free prefix `p`, having started at list-position `i`: one entry
`(value, position)` per element of `p`, most recent in front. -/
def buildSeen : Nat → List Nat → List (Nat × Nat)
  | _, [] => []
  | i, x :: rest => buildSeen (i + 1) rest ++ [(x, i)]

/-- `IndicesOverlap f s v` describes the first conflict a left-to-right scan
of `full` meets: `f < s` hold the repeated value `v`, `f` is the earliest
position holding `v`, and no position before `s` repeats any earlier value. -/
def FirstConflict (full : List Nat) (f s v : Nat) : Prop :=
  f < s ∧ s < full.length ∧ full[f]? = some v ∧ full[s]? = some v ∧
    (∀ k, k < f → full[k]? ≠ some v) ∧
    (∀ j, j < s → ∀ k, k < j → full[k]? ≠ full[j]?)

/-! ### Lemmas about the association list modelling `seen` -/

theorem lookupSeen_append (a b : List (Nat × Nat)) (x : Nat) :
    lookupSeen (a ++ b) x =
      match lookupSeen a x with
      | some j => some j
      | none => lookupSeen b x := by
  induction a with
  | nil => rfl
  | cons kv rest ih =>
    obtain ⟨k, j⟩ := kv
    by_cases hk : k = x <;> simp [lookupSeen, hk, ih]

theorem lookupSeen_buildSeen_some {p : List Nat} {x j : Nat} :
    ∀ {i : Nat}, lookupSeen (buildSeen i p) x = some j →
      ∃ t, p[t]? = some x ∧ j = i + t := by
  induction p with
  | nil => intro i h; simp [buildSeen, lookupSeen] at h
  | cons y rest ih =>
    intro i h
    rw [buildSeen, lookupSeen_append] at h
    rcases hrest : lookupSeen (buildSeen (i + 1) rest) x with _ | j'
    · rw [hrest] at h
      simp only [lookupSeen] at h
      split at h
      · rename_i hyx
        subst hyx
        injection h with h
        exact ⟨0, by simp, by omega⟩
      · simp at h
    · rw [hrest] at h
      obtain rfl : j' = j := Option.some_inj.mp h
      obtain ⟨t, ht, rfl⟩ := ih hrest
      exact ⟨t + 1, by simpa using ht, by omega⟩

theorem lookupSeen_buildSeen_none {p : List Nat} {x : Nat} :
    ∀ {i : Nat}, lookupSeen (buildSeen i p) x = none ↔ x ∉ p := by
  induction p with
  | nil => intro i; simp [buildSeen, lookupSeen]
  | cons y rest ih =>
    intro i
    rw [buildSeen, lookupSeen_append]
    rcases hrest : lookupSeen (buildSeen (i + 1) rest) x with _ | j'
    · have hx : x ∉ rest := ih.mp hrest
      by_cases hyx : y = x
      · subst hyx
        simp [lookupSeen]
      · simp [lookupSeen, hyx, hx, Ne.symm hyx]
    · have hx : ¬ x ∉ rest := by
        rw [← ih (i := i + 1)]
        simp [hrest]
      simp [hx, List.mem_cons]

theorem buildSeen_snoc (p : List Nat) (x : Nat) :
    ∀ i, buildSeen i (p ++ [x]) = (x, i + p.length) :: buildSeen i p := by
  induction p with
  | nil => intro i; simp [buildSeen]
  | cons y rest ih =>
    intro i
    show buildSeen i (y :: (rest ++ [x])) = _
    rw [buildSeen, ih (i + 1), buildSeen]
    simp only [List.cons_append, List.length_cons]
    congr 2
    omega

/-! ### Characterization of the duplicate scan -/

theorem dupScan_spec (l : List Nat) :
    ∀ (p : List Nat), p.Nodup →
      (dupScan (buildSeen 0 p) p.length l = none ∧ (p ++ l).Nodup)
      ∨ ∃ f s v, dupScan (buildSeen 0 p) p.length l = some (.IndicesOverlap f s v)
          ∧ FirstConflict (p ++ l) f s v := by
  induction l with
  | nil =>
    intro p hp
    exact Or.inl ⟨rfl, by simpa using hp⟩
  | cons x rest ih =>
    intro p hp
    rcases hseen : lookupSeen (buildSeen 0 p) x with _ | j
    · -- `x` unseen: insert and recurse, with scanned prefix `p ++ [x]`
      have hx : x ∉ p := lookupSeen_buildSeen_none.mp hseen
      have hstep : dupScan (buildSeen 0 p) p.length (x :: rest) =
          dupScan (buildSeen 0 (p ++ [x])) (p ++ [x]).length rest := by
        rw [buildSeen_snoc p x 0]
        simp only [dupScan, hseen, List.length_append, List.length_singleton,
          Nat.zero_add]
      have hp' : (p ++ [x]).Nodup := by
        simp [List.nodup_append, hp, hx]
      have hfull : (p ++ [x]) ++ rest = p ++ x :: rest := by
        simp
      rcases ih (p ++ [x]) hp' with ⟨hnone, hnd⟩ | ⟨f, s, v, herr, hconf⟩
      · left
        rw [hfull] at hnd
        exact ⟨by rw [hstep, hnone], hnd⟩
      · right
        rw [hfull] at hconf
        exact ⟨f, s, v, by rw [hstep, herr], hconf⟩
    · -- `x` was seen at position `j` of `p`: report the conflict
      right
      obtain ⟨t, hpt, hjt⟩ := lookupSeen_buildSeen_some hseen
      obtain rfl : j = t := by omega
      have hjlen : j < p.length := by
        rcases h : p[j]? with _ | y
        · rw [h] at hpt; cases hpt
        · exact (List.getElem?_eq_some.mp h).1
      refine ⟨j, p.length, x, ?_, ?_, ?_, ?_, ?_, ?_, ?_⟩
      · simp only [dupScan, hseen]
      · exact hjlen
      · simp
      · rw [List.getElem?_append_left hjlen]
        exact hpt
      · rw [List.getElem?_append_right (Nat.le_refl _)]
        simp
      · intro k hk hcontra
        rw [List.getElem?_append_left (Nat.lt_trans hk hjlen)] at hcontra
        have : k = j := List.getElem?_inj (Nat.lt_trans hk hjlen) hp
          (by rw [hcontra, hpt])
        omega
      · intro j' hj' k hk hcontra
        rw [List.getElem?_append_left hj',
          List.getElem?_append_left (Nat.lt_trans hk hj')] at hcontra
        have : k = j' := List.getElem?_inj (Nat.lt_trans hk hj') hp hcontra
        omega

theorem FirstConflict_not_nodup {full : List Nat} {f s v : Nat}
    (h : FirstConflict full f s v) : ¬ full.Nodup := by
  obtain ⟨hfs, hs, hf, hsv, -, -⟩ := h
  intro hnd
  have hflen : f < full.length := by
    rcases hln : full[f]? with _ | y
    · rw [hln] at hf; cases hf
    · exact (List.getElem?_eq_some.mp hln).1
  have : f = s := List.getElem?_inj hflen hnd (by rw [hf, hsv])
  omega

theorem dupScan_none_iff (l : List Nat) :
    dupScan [] 0 l = none ↔ l.Nodup := by
  have h := dupScan_spec l [] List.nodup_nil
  simp only [buildSeen, List.length_nil, List.nil_append] at h
  constructor
  · intro hnone
    rcases h with ⟨-, hnd⟩ | ⟨f, s, v, herr, -⟩
    · exact hnd
    · rw [hnone] at herr; cases herr
  · intro hnd
    rcases h with ⟨hnone, -⟩ | ⟨f, s, v, -, hconf⟩
    · exact hnone
    · exact absurd hnd (FirstConflict_not_nodup hconf)

theorem dupScan_some_spec (l : List Nat) (hnd : ¬ l.Nodup) :
    ∃ f s v, dupScan [] 0 l = some (.IndicesOverlap f s v)
      ∧ FirstConflict l f s v := by
  have h := dupScan_spec l [] List.nodup_nil
  simp only [buildSeen, List.length_nil, List.nil_append] at h
  rcases h with ⟨-, hnd'⟩ | h
  · exact absurd hnd' hnd
  · exact h

/-! ### Characterization of `dupCheck` -/

theorem dupCheck_none_iff (l : List Nat) :
    dupCheck l = none ↔ l.Nodup := by
  match l with
  | [] => simp [dupCheck]
  | [a] => simp [dupCheck]
  | [a, b] =>
    by_cases hab : a = b <;> simp [dupCheck, hab]
  | a :: b :: c :: rest =>
    show dupScan [] 0 (a :: b :: c :: rest) = none ↔ _
    exact dupScan_none_iff _

theorem dupCheck_some_shape {l : List Nat} {e : MutElemsError}
    (h : dupCheck l = some e) : ∃ f s v, e = .IndicesOverlap f s v := by
  match l with
  | [] => cases h
  | [a] => cases h
  | [a, b] =>
    by_cases hab : a = b
    · simp only [dupCheck, if_pos hab] at h
      exact ⟨a, b, a, (Option.some_inj.mp h).symm⟩
    · simp [dupCheck, hab] at h
  | a :: b :: c :: rest =>
    replace h : dupScan [] 0 (a :: b :: c :: rest) = some e := h
    rcases hnd : decide (a :: b :: c :: rest).Nodup with _ | _
    · have hnd' : ¬ (a :: b :: c :: rest).Nodup := of_decide_eq_false hnd
      obtain ⟨f, s, v, herr, -⟩ := dupScan_some_spec _ hnd'
      rw [h] at herr
      exact ⟨f, s, v, Option.some_inj.mp herr⟩
    · have hnd' : (a :: b :: c :: rest).Nodup := of_decide_eq_true hnd
      rw [(dupScan_none_iff _).mpr hnd'] at h
      cases h

theorem dupCheck_long_spec {l : List Nat} (hlen : 2 < l.length)
    (hnd : ¬ l.Nodup) :
    ∃ f s v, dupCheck l = some (.IndicesOverlap f s v)
      ∧ FirstConflict l f s v := by
  match l with
  | [] => simp at hlen
  | [a] => simp at hlen
  | [a, b] => simp at hlen
  | a :: b :: c :: rest =>
    have : dupCheck (a :: b :: c :: rest) = dupScan [] 0 (a :: b :: c :: rest) :=
      rfl
    rw [this]
    exact dupScan_some_spec _ hnd

/-! ### Characterization of the bounds check -/

theorem boundsCheck_none_iff (n : Nat) (l : List Nat) :
    ∀ i, boundsCheck n i l = none ↔ ∀ x ∈ l, x < n := by
  induction l with
  | nil => intro i; simp [boundsCheck]
  | cons x rest ih =>
    intro i
    by_cases hx : n ≤ x
    · simp [boundsCheck, hx]
    · simp [boundsCheck, hx, ih (i + 1)]
      intro h
      omega

theorem boundsCheck_some_spec {n : Nat} {l : List Nat} :
    ∀ {i : Nat} {e : MutElemsError}, boundsCheck n i l = some e →
      ∃ t v, e = .IndexBound (i + t) v n ∧ l[t]? = some v ∧ n ≤ v ∧
        ∀ u, u < t → ∀ w, l[u]? = some w → w < n := by
  induction l with
  | nil => intro i e h; cases h
  | cons x rest ih =>
    intro i e h
    by_cases hx : n ≤ x
    · rw [boundsCheck, if_pos hx] at h
      refine ⟨0, x, (Option.some_inj.mp h).symm ▸ by simp, by simp, hx, ?_⟩
      intro u hu
      omega
    · rw [boundsCheck, if_neg hx] at h
      obtain ⟨t, v, he, hlv, hnv, hsafe⟩ := ih h
      refine ⟨t + 1, v, by rw [he]; congr 1; omega, by simpa using hlv, hnv, ?_⟩
      intro u hu w hw
      match u with
      | 0 =>
        simp at hw
        omega
      | u' + 1 =>
        exact hsafe u' (by omega) w (by simpa using hw)

/-! ### Outcome analysis of `mut_elems` -/

theorem mut_elems_checks {α : Type} {self : List α} {indices hs : List Nat}
    (h : mut_elems self indices = .ok hs) :
    hs = indices ∧ dupCheck indices = none ∧
      boundsCheck self.length 0 indices = none := by
  unfold mut_elems at h
  rcases h1 : dupCheck indices with _ | e <;> rw [h1] at h
  · rcases h2 : boundsCheck self.length 0 indices with _ | e' <;> rw [h2] at h
    · exact ⟨(Except.ok.inj h).symm, rfl, rfl⟩
    · cases h
  · cases h

theorem mut_elems_ok_of_checks {α : Type} {self : List α} {indices : List Nat}
    (h1 : dupCheck indices = none)
    (h2 : boundsCheck self.length 0 indices = none) :
    mut_elems self indices = .ok indices := by
  unfold mut_elems
  rw [h1, h2]

theorem mut_elems_error_of_dup {α : Type} {self : List α} {indices : List Nat}
    {e : MutElemsError} (h : dupCheck indices = some e) :
    mut_elems self indices = .error e := by
  unfold mut_elems
  rw [h]

theorem mut_elems_error_of_bounds {α : Type} {self : List α}
    {indices : List Nat} {e : MutElemsError} (h1 : dupCheck indices = none)
    (h2 : boundsCheck self.length 0 indices = some e) :
    mut_elems self indices = .error e := by
  unfold mut_elems
  rw [h1, h2]

theorem mut_elemsS_fst {α : Type} (self : List α) (indices : List Nat) :
    (mut_elemsS self indices).1 = self := by
  unfold mut_elemsS
  rcases dupCheck indices with _ | e
  · rcases boundsCheck self.length 0 indices with _ | e <;> rfl
  · rfl

theorem mut_elemsS_snd {α : Type} (self : List α) (indices : List Nat) :
    (mut_elemsS self indices).2 = mut_elems self indices := by
  unfold mut_elemsS mut_elems
  rcases dupCheck indices with _ | e
  · rcases boundsCheck self.length 0 indices with _ | e <;> rfl
  · rfl

theorem constructChecked_total {α : Type} {self : List α} {indices : List Nat}
    (h : ∀ ix ∈ indices, ix < self.length) :
    ∃ es, constructChecked self indices = some es := by
  induction indices with
  | nil => exact ⟨[], rfl⟩
  | cons ix rest ih =>
    obtain ⟨es, hes⟩ := ih fun y hy => h y (List.mem_cons_of_mem _ hy)
    have hix : ix < self.length := h ix (List.mem_cons_self _ _)
    refine ⟨self[ix] :: es, ?_⟩
    rw [constructChecked, List.getElem?_eq_getElem hix, hes]

/-! ### Claim theorems -/

/-- C1: at the failing input `indices = [3, 3]` the special-cased `N = 2`
path of `mut_elems` stores the repeated index *value* `3` in both the
`first` and the `second` field of `IndicesOverlap`, so no reading of the
diagnostic as list-positions with `first < second` pointing at the repeated
entries is possible there. -/
theorem mut_elems_n2_overlap_reports_values :
    mut_elems ([1, 2, 3, 4] : List Nat) [3, 3] =
      .error (.IndicesOverlap 3 3 3)
    ∧ ¬ ∃ f s v, mut_elems ([1, 2, 3, 4] : List Nat) [3, 3] =
        .error (.IndicesOverlap f s v) ∧ f < s ∧
        ([3, 3] : List Nat)[f]? = some v ∧ ([3, 3] : List Nat)[s]? = some v := by
  refine ⟨rfl, ?_⟩
  rintro ⟨f, s, v, heq, hfs, -, -⟩
  have h2 : (Except.error (MutElemsError.IndicesOverlap 3 3 3) :
      Except MutElemsError (List Nat)) = .error (.IndicesOverlap f s v) :=
    (show mut_elems ([1, 2, 3, 4] : List Nat) [3, 3] =
      .error (.IndicesOverlap 3 3 3) from rfl).symm.trans heq
  injection h2 with h3
  injection h3 with h4 h5 h6
  omega

/-- C2: `mut_elems` succeeds exactly when the indices are pairwise distinct
and all below the slice length; on success it returns exactly `N` handles
with handle `i` at position `indices[i]` (the handle list is `indices`);
and for `[1, 2, 3, 4]` with indices `[1, 3]`, writing `5` then `7` through
the two handles yields `[1, 5, 3, 7]`. -/
theorem mut_elems_success_characterization {α : Type} (self : List α)
    (indices : List Nat) :
    ((∃ hs, mut_elems self indices = .ok hs) ↔
      indices.Nodup ∧ ∀ ix ∈ indices, ix < self.length)
    ∧ (∀ hs, mut_elems self indices = .ok hs →
        hs.length = indices.length ∧ hs = indices)
    ∧ mut_elems ([1, 2, 3, 4] : List Nat) [1, 3] = .ok [1, 3]
    ∧ writeThrough ([1, 2, 3, 4] : List Nat) [1, 3] [5, 7] = [1, 5, 3, 7] := by
  refine ⟨⟨?_, ?_⟩, ?_, rfl, rfl⟩
  · rintro ⟨hs, h⟩
    obtain ⟨-, h1, h2⟩ := mut_elems_checks h
    exact ⟨(dupCheck_none_iff _).mp h1, (boundsCheck_none_iff _ _ 0).mp h2⟩
  · rintro ⟨hnd, hbd⟩
    exact ⟨indices, mut_elems_ok_of_checks ((dupCheck_none_iff _).mpr hnd)
      ((boundsCheck_none_iff _ _ 0).mpr hbd)⟩
  · intro hs h
    obtain ⟨rfl, -, -⟩ := mut_elems_checks h
    exact ⟨rfl, rfl⟩

/-- C2 witness: the worked example of the claim, through the theorem. -/
theorem mut_elems_success_characterization_witness :
    mut_elems ([1, 2, 3, 4] : List Nat) [1, 3] = .ok [1, 3] :=
  (mut_elems_success_characterization ([1, 2, 3, 4] : List Nat) [1, 3]).2.2.1

/-- C3: for more than two indices containing a duplicate, `mut_elems`
reports the first conflict of the left-to-right scan — `first` is the
earliest list-position of the repeated value, `second` the earliest
list-position repeating any earlier value — and for indices `[1, 2, 1]` the
result is `IndicesOverlap 0 2 1`. -/
theorem mut_elems_first_conflict {α : Type} (self : List α)
    (indices : List Nat) (hlen : 2 < indices.length)
    (hdup : ¬ indices.Nodup) :
    (∃ f s v, mut_elems self indices = .error (.IndicesOverlap f s v)
      ∧ FirstConflict indices f s v)
    ∧ mut_elems ([1, 2, 3, 4] : List Nat) [1, 2, 1] =
        .error (.IndicesOverlap 0 2 1) := by
  refine ⟨?_, rfl⟩
  obtain ⟨f, s, v, herr, hconf⟩ := dupCheck_long_spec hlen hdup
  exact ⟨f, s, v, mut_elems_error_of_dup herr, hconf⟩

/-- C3 witness: the claim's own example `[1, 2, 1]`. -/
theorem mut_elems_first_conflict_witness :
    (∃ f s v, mut_elems ([1, 2, 3, 4] : List Nat) [1, 2, 1] =
        .error (.IndicesOverlap f s v) ∧ FirstConflict [1, 2, 1] f s v)
    ∧ mut_elems ([1, 2, 3, 4] : List Nat) [1, 2, 1] =
        .error (.IndicesOverlap 0 2 1) :=
  mut_elems_first_conflict ([1, 2, 3, 4] : List Nat) [1, 2, 1]
    (by decide) (by decide)

/-- C4: an index list with a duplicate — here additionally containing an
out-of-range value — always yields the `IndicesOverlap` diagnostic and never
the `IndexBound` one: distinctness is checked before bounds. -/
theorem mut_elems_duplicate_precedence {α : Type} (self : List α)
    (indices : List Nat) (hdup : ¬ indices.Nodup)
    (_hoob : ∃ ix ∈ indices, self.length ≤ ix) :
    ∃ f s v, mut_elems self indices = .error (.IndicesOverlap f s v) ∧
      ∀ p ix L, mut_elems self indices ≠ .error (.IndexBound p ix L) := by
  rcases h : dupCheck indices with _ | e
  · exact absurd ((dupCheck_none_iff _).mp h) hdup
  · obtain ⟨f, s, v, rfl⟩ := dupCheck_some_shape h
    have herr : mut_elems self indices = .error (.IndicesOverlap f s v) :=
      mut_elems_error_of_dup h
    refine ⟨f, s, v, herr, ?_⟩
    intro p ix L hcon
    rw [herr] at hcon
    simp at hcon

/-- C4 witness: indices `[5, 5]` on a slice of length 2 hold both a
duplicate and an out-of-range value; the duplicate wins. -/
theorem mut_elems_duplicate_precedence_witness :
    ∃ f s v, mut_elems ([10, 20] : List Nat) [5, 5] =
        .error (.IndicesOverlap f s v) ∧
      ∀ p ix L, mut_elems ([10, 20] : List Nat) [5, 5] ≠
        .error (.IndexBound p ix L) :=
  mut_elems_duplicate_precedence ([10, 20] : List Nat) [5, 5]
    (by decide) (by decide)

/-- C5: on pairwise-distinct indices with some value out of range,
`mut_elems` reports `IndexBound` at the lowest offending list-position,
carrying that position, the value there, and the slice length; and for a
slice of length 4 with indices `[4]` the result is `IndexBound 0 4 4`. -/
theorem mut_elems_first_out_of_bounds {α : Type} (self : List α)
    (indices : List Nat) (hnd : indices.Nodup)
    (hoob : ∃ ix ∈ indices, self.length ≤ ix) :
    (∃ p v, mut_elems self indices = .error (.IndexBound p v self.length)
      ∧ indices[p]? = some v ∧ self.length ≤ v
      ∧ ∀ u, u < p → ∀ w, indices[u]? = some w → w < self.length)
    ∧ mut_elems ([1, 2, 3, 4] : List Nat) [4] = .error (.IndexBound 0 4 4) := by
  refine ⟨?_, rfl⟩
  have h1 : dupCheck indices = none := (dupCheck_none_iff _).mpr hnd
  rcases h : boundsCheck self.length 0 indices with _ | e
  · obtain ⟨ix, hmem, hge⟩ := hoob
    have := (boundsCheck_none_iff _ _ 0).mp h ix hmem
    omega
  · obtain ⟨t, v, rfl, hlv, hnv, hsafe⟩ := boundsCheck_some_spec h
    have herr : mut_elems self indices =
        .error (.IndexBound (0 + t) v self.length) :=
      mut_elems_error_of_bounds h1 h
    rw [Nat.zero_add] at herr
    exact ⟨t, v, herr, hlv, hnv, hsafe⟩

/-- C5 witness: the claim's own example, slice length 4, indices `[4]`. -/
theorem mut_elems_first_out_of_bounds_witness :
    (∃ p v, mut_elems ([1, 2, 3, 4] : List Nat) [4] =
        .error (.IndexBound p v 4)
      ∧ ([4] : List Nat)[p]? = some v ∧ 4 ≤ v
      ∧ ∀ u, u < p → ∀ w, ([4] : List Nat)[u]? = some w → w < 4)
    ∧ mut_elems ([1, 2, 3, 4] : List Nat) [4] = .error (.IndexBound 0 4 4) :=
  mut_elems_first_out_of_bounds ([1, 2, 3, 4] : List Nat) [4]
    (by decide) (by decide)

/-- C6: with the empty index array, `mut_elems` succeeds with the empty
handle set on every slice. -/
theorem mut_elems_empty_indices {α : Type} (self : List α) :
    mut_elems self [] = .ok [] := rfl

/-- C6 witness: the empty index array on the empty slice. -/
theorem mut_elems_empty_indices_witness :
    mut_elems ([] : List Nat) [] = .ok [] :=
  mut_elems_empty_indices ([] : List Nat)

/-- C7: `as_mut_elems` returns the same handles, in the same order, as
`mut_elems` run on the full index range `[0, …, N-1]` (which never fails),
and `as_mut_elems_vec` returns one handle per position of the slice,
handle `i` at position `i`, for every length including 0. -/
theorem as_mut_elems_refines_mut_elems {α : Type} (self : List α) :
    mut_elems self (List.range self.length) = .ok (as_mut_elems self)
    ∧ as_mut_elems self = as_mut_elems_vec self
    ∧ (as_mut_elems_vec self).length = self.length
    ∧ ∀ i, i < self.length → (as_mut_elems_vec self)[i]? = some i := by
  refine ⟨?_, rfl, by simp [as_mut_elems_vec], ?_⟩
  · have hnd : (List.range self.length).Nodup := List.nodup_range _
    have hbd : ∀ x ∈ List.range self.length, x < self.length := fun x hx =>
      List.mem_range.mp hx
    exact mut_elems_ok_of_checks ((dupCheck_none_iff _).mpr hnd)
      ((boundsCheck_none_iff _ _ 0).mpr hbd)
  · intro i hi
    show (List.range self.length)[i]? = some i
    exact List.getElem?_range hi

/-- C7 witness: the select-all operations on a 4-element slice, and on the
empty slice. -/
theorem as_mut_elems_refines_mut_elems_witness :
    mut_elems ([10, 20, 30, 40] : List Nat) (List.range 4) =
      .ok (as_mut_elems ([10, 20, 30, 40] : List Nat))
    ∧ mut_elems ([] : List Nat) (List.range 0) =
      .ok (as_mut_elems ([] : List Nat)) :=
  ⟨(as_mut_elems_refines_mut_elems ([10, 20, 30, 40] : List Nat)).1,
    (as_mut_elems_refines_mut_elems ([] : List Nat)).1⟩

/-- C8: a failing call is atomic — the slice contents it leaves behind are
exactly the contents it received, and no handle list is produced. -/
theorem mut_elems_failure_atomic {α : Type} (self : List α)
    (indices : List Nat) (e : MutElemsError)
    (h : mut_elems self indices = .error e) :
    (mut_elemsS self indices).1 = self
    ∧ (mut_elemsS self indices).2 = .error e
    ∧ ∀ hs, mut_elems self indices ≠ .ok hs := by
  refine ⟨mut_elemsS_fst self indices, ?_, ?_⟩
  · rw [mut_elemsS_snd, h]
  · intro hs hcon
    rw [h] at hcon
    cases hcon

/-- C8 witness: the failing call on `[1, 2, 3, 4]` with indices `[3, 3]`
leaves the slice untouched. -/
theorem mut_elems_failure_atomic_witness :
    (mut_elemsS ([1, 2, 3, 4] : List Nat) [3, 3]).1 = [1, 2, 3, 4]
    ∧ (mut_elemsS ([1, 2, 3, 4] : List Nat) [3, 3]).2 =
        .error (.IndicesOverlap 3 3 3)
    ∧ ∀ hs, mut_elems ([1, 2, 3, 4] : List Nat) [3, 3] ≠ .ok hs :=
  mut_elems_failure_atomic ([1, 2, 3, 4] : List Nat) [3, 3]
    (.IndicesOverlap 3 3 3) rfl

/-- C9: `mut_elems` is total — every call yields a diagnostic or a handle
list — and on the success path every index is in range, so the two
`get_unchecked` accesses of the construction step, modelled with checked
indexing by `constructChecked`, always succeed there. -/
theorem mut_elems_total {α : Type} (self : List α) (indices : List Nat) :
    (∃ e, mut_elems self indices = .error e)
    ∨ (mut_elems self indices = .ok indices
        ∧ (∀ ix ∈ indices, ix < self.length)
        ∧ ∃ es, constructChecked self indices = some es) := by
  rcases h : mut_elems self indices with e | hs
  · exact Or.inl ⟨e, rfl⟩
  · right
    obtain ⟨rfl, h1, h2⟩ := mut_elems_checks h
    have hbd := (boundsCheck_none_iff _ _ 0).mp h2
    exact ⟨rfl, hbd, constructChecked_total hbd⟩

/-- C9 witness: a success call and a failure call, both total. -/
theorem mut_elems_total_witness :
    (∃ e, mut_elems ([1, 2] : List Nat) [0, 1] = .error e)
    ∨ (mut_elems ([1, 2] : List Nat) [0, 1] = .ok [0, 1]
        ∧ (∀ ix ∈ ([0, 1] : List Nat), ix < ([1, 2] : List Nat).length)
        ∧ ∃ es, constructChecked ([1, 2] : List Nat) [0, 1] = some es) :=
  mut_elems_total ([1, 2] : List Nat) [0, 1]

/-- C10: the outcome of `mut_elems` — success and handles, or the exact
diagnostic — depends only on the index array and the slice's length, not on
the element values or even the element type. -/
theorem mut_elems_depends_only_on_length {α β : Type} (s1 : List α)
    (s2 : List β) (indices : List Nat) (h : s1.length = s2.length) :
    mut_elems s1 indices = mut_elems s2 indices := by
  unfold mut_elems
  rw [h]

/-- C10 witness: a `Bool` slice and a `Nat` slice of the same length give
identical results. -/
theorem mut_elems_depends_only_on_length_witness :
    mut_elems ([true, false] : List Bool) [1, 0] =
      mut_elems ([10, 20] : List Nat) [1, 0] :=
  mut_elems_depends_only_on_length ([true, false] : List Bool)
    ([10, 20] : List Nat) [1, 0] rfl
